import Mathlib

/-!
Verification development for the scPortrait notebook pipeline.

Rasters are modelled flattened to one dimension where geometry is
irrelevant: a label mask is a `List Nat` whose entry `i` is the label
of pixel `i`, with `0` denoting background.  Intensity images use `ℚ`
for real-valued pixels.  Components of the pipeline that the notebooks
invoke from the scPortrait library are modelled from the spec, as
marked on each definition.
-/

namespace ScPortrait

/-- Pixel area of label `l` in mask `m`. -/
def area (m : List Nat) (l : Nat) : Nat :=
  (m.filter (fun x => x == l)).length

/-- Number of pixels carrying label `n` in `nuc` and simultaneously label `c`
in `cyt` (the two masks are read in parallel pixel order). -/
def intersectionCount (nuc cyt : List Nat) (n c : Nat) : Nat :=
  ((nuc.zip cyt).filter (fun p => p.1 == n && p.2 == c)).length

/-- The labels present in a mask, background `0` excluded. -/
def labelsOf (m : List Nat) : List Nat :=
  (m.filter (fun x => decide (x ≠ 0))).dedup

/-- Modelled from the spec: `overlap(n,c) = |n ∩ c| / |n|`, the fraction of
nucleus `n` covered by cytosol `c` (MaskMatcher, §4.5).  Stated via
`Rat.divInt`; `overlap_eq_div` below identifies it with the division of the
two pixel counts in `ℚ`. -/
def overlap (nuc cyt : List Nat) (n c : Nat) : ℚ :=
  Rat.divInt (intersectionCount nuc cyt n c : Int) (area nuc n : Int)

theorem overlap_eq_div (nuc cyt : List Nat) (n c : Nat) :
    overlap nuc cyt n c =
      (intersectionCount nuc cyt n c : ℚ) / (area nuc n : ℚ) := by
  rw [overlap, Rat.divInt_eq_div]
  push_cast
  rfl

/-- Modelled from the spec: candidate cytosol `c` beats candidate `cPrime`
for nucleus `n` — larger overlap wins, ties broken by larger intersection,
then by lower numeric label id. -/
def cytBeats (nuc cyt : List Nat) (n c cPrime : Nat) : Bool :=
  decide (overlap nuc cyt n cPrime < overlap nuc cyt n c) ||
    (decide (overlap nuc cyt n c = overlap nuc cyt n cPrime) &&
      (decide (intersectionCount nuc cyt n cPrime < intersectionCount nuc cyt n c) ||
        (decide (intersectionCount nuc cyt n c = intersectionCount nuc cyt n cPrime) &&
          decide (c < cPrime))))

/-- Modelled from the spec: nucleus `n` beats nucleus `nPrime` as a candidate
for cytosol `c` — same ordering, overlaps taken relative to each nucleus. -/
def nucBeats (nuc cyt : List Nat) (c n nPrime : Nat) : Bool :=
  decide (overlap nuc cyt nPrime c < overlap nuc cyt n c) ||
    (decide (overlap nuc cyt n c = overlap nuc cyt nPrime c) &&
      (decide (intersectionCount nuc cyt nPrime c < intersectionCount nuc cyt n c) ||
        (decide (intersectionCount nuc cyt n c = intersectionCount nuc cyt nPrime c) &&
          decide (n < nPrime))))

/-- Modelled from the spec: `c` is the best-overlap cytosol for nucleus `n`
among all cytosols with non-empty intersection. -/
def bestCytForNuc (nuc cyt : List Nat) (n c : Nat) : Bool :=
  decide (0 < intersectionCount nuc cyt n c) &&
    (labelsOf cyt).all (fun cPrime =>
      cPrime == c || decide (intersectionCount nuc cyt n cPrime = 0) ||
        cytBeats nuc cyt n c cPrime)

/-- Modelled from the spec: `n` is the best-overlap nucleus for cytosol `c`
among all nuclei with non-empty intersection. -/
def bestNucForCyt (nuc cyt : List Nat) (n c : Nat) : Bool :=
  decide (0 < intersectionCount nuc cyt n c) &&
    (labelsOf nuc).all (fun nPrime =>
      nPrime == n || decide (intersectionCount nuc cyt nPrime c = 0) ||
        nucBeats nuc cyt c n nPrime)

/-- Modelled from the spec: MaskMatcher keeps the pair `(n, c)` exactly when
its overlap reaches the threshold `t` and it is the mutual best match. -/
def keepPair (nuc cyt : List Nat) (t : ℚ) (n c : Nat) : Bool :=
  decide (t ≤ overlap nuc cyt n c) && bestCytForNuc nuc cyt n c &&
    bestNucForCyt nuc cyt n c

/-- Error raised by MaskMatcher for a malformed threshold. -/
structure MatchingError where
  msg : String
deriving DecidableEq

/-- Lexicographic order on (nucleus label, cytosol label) pairs. -/
def pairLE (p q : Nat × Nat) : Prop :=
  p.1 < q.1 ∨ (p.1 = q.1 ∧ p.2 ≤ q.2)

instance : DecidableRel pairLE := fun p q => by
  unfold pairLE; infer_instance

/-- Modelled from the spec: the kept pairs, renumbered into the contiguous
canonical id space `1..M` in increasing order of (nucleus label, cytosol
label); each entry is `(canonical id, nucleus label, cytosol label)`. -/
def matchTable (nuc cyt : List Nat) (t : ℚ) : List (Nat × Nat × Nat) :=
  let kept := (labelsOf nuc).flatMap (fun n =>
    (labelsOf cyt).filterMap (fun c =>
      if keepPair nuc cyt t n c then some (n, c) else none))
  (kept.insertionSort pairLE).enum.map (fun ic => (ic.1 + 1, ic.2.1, ic.2.2))

/-- Modelled from the spec: MaskMatcher fails with `MatchingError` only if the
threshold is outside `[0,1]`; otherwise it returns the match table (possibly
empty — zero matches is a valid non-error outcome). -/
def matchMasks (nuc cyt : List Nat) (t : ℚ) :
    Except MatchingError (List (Nat × Nat × Nat)) :=
  if t < 0 ∨ 1 < t then
    .error ⟨"matching threshold outside the interval [0,1]"⟩
  else
    .ok (matchTable nuc cyt t)

/-- `true` exactly on the success branch of an `Except` value. -/
def isOkE : Except ε α → Bool
  | .ok _ => true
  | .error _ => false

/-- Example masks: nucleus label 1 of 100 px, cytosol label 1 of 100 px,
intersecting in 80 px, so `overlap = 0.8`. -/
def exNuc : List Nat := List.replicate 100 1 ++ List.replicate 20 0

/-- Cytosol companion of `exNuc`. -/
def exCyt : List Nat := List.replicate 20 0 ++ List.replicate 100 1

/-- Witness masks: nucleus 1 (10 px) overlaps cytosol 2 (4 px, overlap 0.4)
and cytosol 3 (6 px, overlap 0.6). -/
def wNuc : List Nat := List.replicate 10 1

/-- Cytosol companion of `wNuc`. -/
def wCyt : List Nat := List.replicate 4 2 ++ List.replicate 6 3

theorem bestCytForNuc_eq_false_of_lt {nuc cyt : List Nat} {n b c : Nat}
    (hc : c ∈ labelsOf cyt) (hbc : b ≠ c)
    (hic : intersectionCount nuc cyt n c ≠ 0)
    (hlt : overlap nuc cyt n b < overlap nuc cyt n c) :
    bestCytForNuc nuc cyt n b = false := by
  by_contra h
  rw [Bool.not_eq_false] at h
  rw [bestCytForNuc, Bool.and_eq_true, List.all_eq_true] at h
  obtain ⟨-, hall⟩ := h
  have hco := hall c hc
  rw [Bool.or_eq_true, Bool.or_eq_true] at hco
  rcases hco with (hcb | h0) | hbeats
  · exact hbc (beq_iff_eq.mp hcb).symm
  · exact hic (of_decide_eq_true h0)
  · rw [cytBeats, Bool.or_eq_true, Bool.and_eq_true] at hbeats
    rcases hbeats with h1 | ⟨h2, -⟩
    · exact lt_asymm hlt (of_decide_eq_true h1)
    · exact absurd (of_decide_eq_true h2) (ne_of_lt hlt)

set_option maxRecDepth 40000 in
/-- C1: MaskMatcher keeps a (nucleus label, cytosol label) pair exactly when
`overlap(n,c) = intersection / nucleus area` reaches the configured threshold
and the pair is the mutual best-overlap match, ties broken by larger
intersection then lower label id; a nucleus overlapping two cytosols can keep
only the one with the higher overlap, and an overlap of 0.8 is dropped under
threshold 0.95 but retained under threshold 0.7. -/
theorem C1_mask_matcher_keep_rule :
    (∀ (nuc cyt : List Nat) (t : ℚ) (n c : Nat),
        keepPair nuc cyt t n c = true ↔
          t ≤ (intersectionCount nuc cyt n c : ℚ) / (area nuc n : ℚ) ∧
            bestCytForNuc nuc cyt n c = true ∧
            bestNucForCyt nuc cyt n c = true) ∧
    (∀ (nuc cyt : List Nat) (t : ℚ) (n b c : Nat),
        c ∈ labelsOf cyt → b ≠ c →
        intersectionCount nuc cyt n c ≠ 0 →
        overlap nuc cyt n b < overlap nuc cyt n c →
        keepPair nuc cyt t n b = false) ∧
    keepPair exNuc exCyt (mkRat 95 100) 1 1 = false ∧
    keepPair exNuc exCyt (mkRat 7 10) 1 1 = true := by
  refine ⟨?_, ?_, by decide, by decide⟩
  · intro nuc cyt t n c
    rw [← overlap_eq_div]
    simp [keepPair, Bool.and_eq_true, decide_eq_true_iff, and_assoc]
  · intro nuc cyt t n b c hc hbc hic hlt
    simp [keepPair, bestCytForNuc_eq_false_of_lt hc hbc hic hlt]

theorem C1_mask_matcher_keep_rule_witness :
    keepPair wNuc wCyt (mkRat 1 10) 1 2 = false :=
  C1_mask_matcher_keep_rule.2.1 wNuc wCyt (mkRat 1 10) 1 2 3
    (by decide) (by decide) (by decide) (by decide)

/-- C4: MaskMatcher fails with `MatchingError` exactly when the configured
threshold lies outside `[0,1]`; for every valid threshold it returns the
match table normally, and finding zero matched pairs is a non-error outcome
returning a zero-length result. -/
theorem C4_matching_threshold_error :
    (∀ (nuc cyt : List Nat) (t : ℚ),
        isOkE (matchMasks nuc cyt t) = false ↔ (t < 0 ∨ 1 < t)) ∧
    (∀ (nuc cyt : List Nat) (t : ℚ), 0 ≤ t → t ≤ 1 →
        matchMasks nuc cyt t = .ok (matchTable nuc cyt t)) ∧
    matchTable (1 :: 0 :: List.nil) (0 :: 2 :: List.nil) (mkRat 1 2) =
      List.nil ∧
    isOkE (matchMasks (1 :: 0 :: List.nil) (0 :: 2 :: List.nil)
      (mkRat 1 2)) = true := by
  refine ⟨?_, ?_, by decide, by decide⟩
  · intro nuc cyt t
    by_cases h : t < 0 ∨ 1 < t
    · simp [matchMasks, h, isOkE]
    · simp [matchMasks, h, isOkE]
  · intro nuc cyt t h0 h1
    simp only [matchMasks]
    rw [if_neg (not_or.mpr ⟨not_lt.mpr h0, not_lt.mpr h1⟩)]

theorem C4_matching_threshold_error_witness :
    matchMasks wNuc wCyt (mkRat 1 2) =
      .ok (matchTable wNuc wCyt (mkRat 1 2)) :=
  C4_matching_threshold_error.2.1 wNuc wCyt (mkRat 1 2)
    (by decide) (by decide)

/-- A single-cell record of the chunked extraction store: the canonical cell
id together with the per-cell crop stack. -/
structure CellRecord where
  cellId : Nat
  stack : List (List ℚ)

/-- The chunked extraction store: an ordered index of canonical cell ids and
the parallel data array of records. -/
structure SCStore where
  index : List Nat
  data : List CellRecord

/-- Modelled from the spec: flushing one chunk appends the chunk's index rows
and data rows together, atomically (ChunkedExtractor, §4.6: "Index and data
rows are appended atomically together"). -/
def flushChunk (s : SCStore) (chunk : List CellRecord) : SCStore :=
  ⟨s.index ++ chunk.map CellRecord.cellId, s.data ++ chunk⟩

/-- Modelled from the spec: the store contents after a sequence of flushed
chunks, starting from the empty store.  Every observation point of the store
is `runChunks chunks` for the list of chunks flushed so far. -/
def runChunks (chunks : List (List CellRecord)) : SCStore :=
  chunks.foldl flushChunk ⟨[], []⟩

theorem getD_map_of_lt {α β : Type} (f : α → β) :
    ∀ (l : List α) (i : Nat), i < l.length →
      ∀ (d0 : β) (d1 : α), (l.map f).getD i d0 = f (l.getD i d1)
  | [], _, h => by simp at h
  | _ :: _, 0, _ => by intro d0 d1; rfl
  | _ :: l, i + 1, h => by
    intro d0 d1
    exact getD_map_of_lt f l i (Nat.lt_of_succ_lt_succ h) d0 d1

theorem foldl_flushChunk_aligned :
    ∀ (chunks : List (List CellRecord)) (s : SCStore),
      s.index = s.data.map CellRecord.cellId →
      (chunks.foldl flushChunk s).index =
        (chunks.foldl flushChunk s).data.map CellRecord.cellId
  | [], _, h => h
  | chunk :: chunks, s, h => by
    apply foldl_flushChunk_aligned chunks
    simp [flushChunk, h]

/-- C3: at every observation point of the chunked extraction store (after
every flushed chunk) the index and the data array have the same number of
rows, the index row at position `i` holds the canonical cell id of the record
at data row `i`, and one flush appends index and data rows together. -/
theorem C3_store_index_data_aligned :
    (∀ chunks, (runChunks chunks).index =
        (runChunks chunks).data.map CellRecord.cellId) ∧
    (∀ chunks, (runChunks chunks).index.length =
        (runChunks chunks).data.length) ∧
    (∀ chunks i, i < (runChunks chunks).data.length →
        (runChunks chunks).index.getD i 0 =
          ((runChunks chunks).data.getD i ⟨0, []⟩).cellId) ∧
    (∀ s chunk, (flushChunk s chunk).index =
        s.index ++ chunk.map CellRecord.cellId ∧
        (flushChunk s chunk).data = s.data ++ chunk) := by
  have key : ∀ chunks, (runChunks chunks).index =
      (runChunks chunks).data.map CellRecord.cellId := fun chunks =>
    foldl_flushChunk_aligned chunks ⟨[], []⟩ rfl
  refine ⟨key, ?_, ?_, ?_⟩
  · intro chunks
    rw [key chunks, List.length_map]
  · intro chunks i hi
    rw [key chunks, getD_map_of_lt CellRecord.cellId _ i hi 0 ⟨0, []⟩]
  · intro s chunk
    exact ⟨rfl, rfl⟩

theorem C3_store_index_data_aligned_witness :
    (runChunks (((⟨7, []⟩ : CellRecord) :: []) :: [])).index.getD 0 0 =
      ((runChunks (((⟨7, []⟩ : CellRecord) :: []) :: [])).data.getD 0
        ⟨0, []⟩).cellId :=
  C3_store_index_data_aligned.2.2.1 (((⟨7, []⟩ : CellRecord) :: []) :: []) 0
    (by decide)

/-- Error for a single-cell crop failure during extraction. -/
structure ExtractionError where
  msg : String

/-- Error for an I/O failure of the single writer. -/
structure StorageError where
  msg : String

/-- Modelled from the spec: per-cell crop failures are recovered locally —
the failing cell is skipped and logged while extraction of the remaining
cells continues; the result is the list of successfully cropped records
together with the log of skipped cells (ChunkedExtractor §4.6, §7). -/
def extractBatch {α β : Type} (crop : α → Except ExtractionError β) :
    List α → List β × List α
  | [] => ([], [])
  | cell :: rest =>
    match crop cell with
    | .ok r => (r :: (extractBatch crop rest).1, (extractBatch crop rest).2)
    | .error _ =>
        ((extractBatch crop rest).1, cell :: (extractBatch crop rest).2)

/-- Modelled from the spec: the full extraction run — crop every cell with
local failure recovery, then hand the completed records to the single
writer; only the writer can abort the run, with `StorageError` (§5, §7). -/
def runExtraction {α β γ : Type} (crop : α → Except ExtractionError β)
    (write : List β → Except StorageError γ) (cells : List α) :
    Except StorageError γ :=
  write (extractBatch crop cells).1

/-- C9: a failure to crop any single cell is recovered locally — the failing
cell is logged in the skip list while every other cell is still processed,
and the batch is never aborted by a per-cell error; the run errors exactly
when the single writer errors (`StorageError`). -/
theorem C9_cell_failure_isolated :
    (∀ (α β : Type) (crop : α → Except ExtractionError β) (cells : List α),
        (extractBatch crop cells).1.length +
          (extractBatch crop cells).2.length = cells.length) ∧
    (∀ (α β : Type) (crop : α → Except ExtractionError β) (cells : List α)
        (cell : α) (e : ExtractionError), cell ∈ cells →
        crop cell = .error e → cell ∈ (extractBatch crop cells).2) ∧
    (∀ (α β : Type) (crop : α → Except ExtractionError β) (cells : List α)
        (cell : α) (b : β), cell ∈ cells →
        crop cell = .ok b → b ∈ (extractBatch crop cells).1) ∧
    (∀ (α β γ : Type) (crop : α → Except ExtractionError β)
        (write : List β → Except StorageError γ) (cells : List α),
        runExtraction crop write cells =
          write (extractBatch crop cells).1) := by
  refine ⟨?_, ?_, ?_, ?_⟩
  · intro α β crop cells
    induction cells with
    | nil => rfl
    | cons cell rest ih =>
      cases hcr : crop cell <;> simp [extractBatch, hcr] <;> omega
  · intro α β crop cells cell e hmem hcrop
    induction cells with
    | nil => simp at hmem
    | cons x rest ih =>
      rcases List.mem_cons.mp hmem with hx | hrest
      · subst hx
        simp [extractBatch, hcrop]
      · cases hcr : crop x <;> simp [extractBatch, hcr, ih hrest]
  · intro α β crop cells cell b hmem hcrop
    induction cells with
    | nil => simp at hmem
    | cons x rest ih =>
      rcases List.mem_cons.mp hmem with hx | hrest
      · subst hx
        simp [extractBatch, hcrop]
      · cases hcr : crop x <;> simp [extractBatch, hcr, ih hrest]
  · intro α β γ crop write cells
    rfl

theorem C9_cell_failure_isolated_witness :
    (3 : Nat) ∈ (extractBatch
      (fun n : Nat => if n = 3 then .error ⟨"degenerate mask"⟩ else .ok n)
      (1 :: 3 :: 5 :: [])).2 :=
  C9_cell_failure_isolated.2.1 Nat Nat
    (fun n : Nat => if n = 3 then .error ⟨"degenerate mask"⟩ else .ok n)
    (1 :: 3 :: 5 :: []) 3 ⟨"degenerate mask"⟩ (by decide) (by simp)

/-- The extraction channel-order labels displayed by the notebook for the
WGA and Cellpose extraction results (src/unnamed/part_000). -/
def extractionLabels : List String :=
  ["nucleus mask", "cytosol mask", "nucleus", "cytosol", "additional channel"]

/-- Modelled from the spec: assemble the per-cell crop stack in the fixed
channel order — nucleus mask, cytosol mask, then one crop per input channel
in acquisition order, whose fixed order is nucleus stain, membrane/cytosol
stain, additional stains (ChunkedExtractor §4.6, §6). -/
def assembleStack (nucMaskCrop cytMaskCrop : List ℚ)
    (channelCrops : List (List ℚ)) : List (List ℚ) :=
  nucMaskCrop :: cytMaskCrop :: channelCrops

/-- C6: the per-cell stack is assembled in the fixed order nucleus mask,
cytosol mask, nucleus channel, cytosol channel, then the remaining channels
in acquisition order; for the three-channel acquisition of the notebooks
this matches the five displayed labels. -/
theorem C6_stack_channel_order :
    (∀ (nm cm : List ℚ) (chans : List (List ℚ)),
        (assembleStack nm cm chans).length = chans.length + 2 ∧
        (assembleStack nm cm chans).getD 0 [] = nm ∧
        (assembleStack nm cm chans).getD 1 [] = cm ∧
        (∀ k, (assembleStack nm cm chans).getD (k + 2) [] =
          chans.getD k [])) ∧
    (∀ (nm cm c0 c1 c2 : List ℚ),
        (assembleStack nm cm (c0 :: c1 :: c2 :: [])).length =
          extractionLabels.length ∧
        (assembleStack nm cm (c0 :: c1 :: c2 :: [])).getD 2 [] = c0 ∧
        (assembleStack nm cm (c0 :: c1 :: c2 :: [])).getD 3 [] = c1 ∧
        (assembleStack nm cm (c0 :: c1 :: c2 :: [])).getD 4 [] = c2) := by
  constructor
  · intro nm cm chans
    refine ⟨?_, rfl, rfl, fun k => rfl⟩
    simp [assembleStack]
  · intro nm cm c0 c1 c2
    exact ⟨rfl, rfl, rfl, rfl⟩

theorem mem_labelsOf {m : List Nat} {l : Nat} :
    l ∈ labelsOf m ↔ l ∈ m ∧ l ≠ 0 := by
  simp [labelsOf, List.mem_dedup, List.mem_filter]

/-- Position of the seed pixel of label `l`: the first pixel carrying `l`. -/
def firstIndexOf (m : List Nat) (l : Nat) : Nat :=
  m.findIdx (fun x => x == l)

/-- Modelled from the spec: the seed set derived from the nucleus mask — one
(label, coordinate) pair per nucleus label (§3, NucleusSegmenter output). -/
def seedsOf (nuc : List Nat) : List (Nat × Nat) :=
  (labelsOf nuc).map (fun l => (l, firstIndexOf nuc l))

/-- Distance between two pixel coordinates of the flattened raster. -/
def natDist (a b : Nat) : Nat := max a b - min a b

/-- The seed among `t :: rest` nearest to pixel `i` (earlier seeds win
ties). -/
def nearestSeed (i : Nat) (t : Nat × Nat) : List (Nat × Nat) → Nat × Nat
  | [] => t
  | u :: rest =>
    if natDist t.2 i ≤ natDist (nearestSeed i u rest).2 i then t
    else nearestSeed i u rest

/-- Modelled from the spec (glossary): watershed assigns every pixel to the
basin of its nearest seed; the pixel takes that seed's nucleus label, or `0`
when there is no seed at all. -/
def nearestSeedLabel : List (Nat × Nat) → Nat → Nat
  | [], _ => 0
  | t :: rest, i => (nearestSeed i t rest).1

/-- Modelled from the spec: the WGA cytosol mask before size filtering —
seeded watershed over the cytosolic foreground using nucleus labels as
markers, so every foreground pixel inherits the label of its generating
nucleus (CytosolSegmenterWGA, §4.3 step 4). -/
def wgaCytosolRaw (nuc : List Nat) (fg : List Bool) : List Nat :=
  (List.range nuc.length).map (fun i =>
    if fg.getD i false then nearestSeedLabel (seedsOf nuc) i else 0)

/-- Modelled from the spec: a label survives the WGA size filter when it is
present in both masks and its cytosol area lies in `[minS, maxS]`; a nucleus
whose cytosol partner fails the filter is dropped from both masks
(CytosolSegmenterWGA, §4.3 step 6). -/
def wgaKeep (nuc cyt : List Nat) (minS maxS l : Nat) : Bool :=
  decide (l ≠ 0) && decide (l ∈ nuc) && decide (l ∈ cyt) &&
    decide (minS ≤ area cyt l) && decide (area cyt l ≤ maxS)

/-- Zero out every pixel whose label is not kept. -/
def applyKeep (keep : Nat → Bool) (m : List Nat) : List Nat :=
  m.map (fun x => if keep x then x else 0)

/-- Modelled from the spec: the paired output masks of the WGA cytosol
segmentation — watershed cytosol mask plus joint size filtering of both
masks (CytosolSegmenterWGA, §4.3). -/
def wgaSegment (nuc : List Nat) (fg : List Bool) (minS maxS : Nat) :
    List Nat × List Nat :=
  (applyKeep (wgaKeep nuc (wgaCytosolRaw nuc fg) minS maxS) nuc,
   applyKeep (wgaKeep nuc (wgaCytosolRaw nuc fg) minS maxS)
     (wgaCytosolRaw nuc fg))

theorem wgaKeep_eq_true_iff {nuc cyt : List Nat} {minS maxS l : Nat} :
    wgaKeep nuc cyt minS maxS l = true ↔
      l ≠ 0 ∧ l ∈ nuc ∧ l ∈ cyt ∧ minS ≤ area cyt l ∧
        area cyt l ≤ maxS := by
  simp [wgaKeep, Bool.and_eq_true, and_assoc]

theorem mem_labelsOf_applyKeep {k : Nat → Bool} {m : List Nat} {l : Nat} :
    l ∈ labelsOf (applyKeep k m) ↔ k l = true ∧ l ∈ m ∧ l ≠ 0 := by
  rw [mem_labelsOf]
  constructor
  · rintro ⟨hm, h0⟩
    rw [applyKeep, List.mem_map] at hm
    obtain ⟨x, hx, hxe⟩ := hm
    by_cases hk : k x = true
    · rw [if_pos hk] at hxe
      subst hxe
      exact ⟨hk, hx, h0⟩
    · rw [if_neg hk] at hxe
      exact absurd hxe.symm h0
  · rintro ⟨hk, hm, h0⟩
    exact ⟨List.mem_map.mpr ⟨l, hm, by rw [if_pos hk]⟩, h0⟩

theorem nearestSeed_mem (i : Nat) :
    ∀ (t : Nat × Nat) (rest : List (Nat × Nat)),
      nearestSeed i t rest ∈ t :: rest
  | t, [] => List.mem_cons_self t []
  | t, u :: rest => by
    rw [nearestSeed]
    split
    · exact List.mem_cons_self _ _
    · exact List.mem_cons_of_mem t (nearestSeed_mem i u rest)

theorem nearestSeedLabel_mem {seeds : List (Nat × Nat)} {i l : Nat}
    (h : nearestSeedLabel seeds i = l) (h0 : l ≠ 0) :
    l ∈ seeds.map Prod.fst := by
  cases seeds with
  | nil =>
    rw [nearestSeedLabel] at h
    exact absurd h.symm h0
  | cons t rest =>
    rw [nearestSeedLabel] at h
    exact List.mem_map.mpr ⟨_, nearestSeed_mem i t rest, h⟩

theorem map_fst_pair {f : Nat → Nat} : ∀ (l : List Nat),
    (l.map (fun x => (x, f x))).map Prod.fst = l
  | [] => rfl
  | x :: l => by
    rw [List.map_cons, List.map_cons]
    exact congrArg (x :: ·) (map_fst_pair l)

theorem seedsOf_map_fst (nuc : List Nat) :
    (seedsOf nuc).map Prod.fst = labelsOf nuc :=
  map_fst_pair (labelsOf nuc)

/-- C2: on the WGA cytosol-segmentation path the nucleus and cytosol output
masks carry exactly the same label set (shared ids, a bijection); every
cytosol label is the label id of its generating nucleus; and a label whose
cytosol area fails the `[min_size, max_size]` filter is removed from both
masks. -/
theorem C2_wga_label_bijection :
    (∀ (nuc : List Nat) (fg : List Bool) (minS maxS l : Nat),
        l ∈ labelsOf (wgaSegment nuc fg minS maxS).1 ↔
          l ∈ labelsOf (wgaSegment nuc fg minS maxS).2) ∧
    (∀ (nuc : List Nat) (fg : List Bool) (l : Nat),
        l ∈ labelsOf (wgaCytosolRaw nuc fg) → l ∈ labelsOf nuc) ∧
    (∀ (nuc : List Nat) (fg : List Bool) (minS maxS l : Nat),
        area (wgaCytosolRaw nuc fg) l < minS ∨
          maxS < area (wgaCytosolRaw nuc fg) l →
        l ∉ labelsOf (wgaSegment nuc fg minS maxS).1 ∧
          l ∉ labelsOf (wgaSegment nuc fg minS maxS).2) := by
  refine ⟨?_, ?_, ?_⟩
  · intro nuc fg minS maxS l
    rw [wgaSegment]
    rw [mem_labelsOf_applyKeep, mem_labelsOf_applyKeep]
    constructor
    · rintro ⟨hk, -, h0⟩
      exact ⟨hk, (wgaKeep_eq_true_iff.mp hk).2.2.1, h0⟩
    · rintro ⟨hk, -, h0⟩
      exact ⟨hk, (wgaKeep_eq_true_iff.mp hk).2.1, h0⟩
  · intro nuc fg l hl
    obtain ⟨hm, h0⟩ := mem_labelsOf.mp hl
    rw [wgaCytosolRaw, List.mem_map] at hm
    obtain ⟨i, -, hi⟩ := hm
    by_cases hf : fg.getD i false = true
    · rw [if_pos hf] at hi
      have := nearestSeedLabel_mem hi h0
      rwa [seedsOf_map_fst] at this
    · rw [if_neg hf] at hi
      exact absurd hi.symm h0
  · intro nuc fg minS maxS l harea
    constructor
    · intro hmem
      obtain ⟨hk, -, -⟩ := mem_labelsOf_applyKeep.mp hmem
      obtain ⟨-, -, -, h1, h2⟩ := wgaKeep_eq_true_iff.mp hk
      rcases harea with h | h <;> omega
    · intro hmem
      obtain ⟨hk, -, -⟩ := mem_labelsOf_applyKeep.mp hmem
      obtain ⟨-, -, -, h1, h2⟩ := wgaKeep_eq_true_iff.mp hk
      rcases harea with h | h <;> omega

theorem C2_wga_label_bijection_witness :
    (1 : Nat) ∈ labelsOf (1 :: 0 :: []) :=
  C2_wga_label_bijection.2.1 (1 :: 0 :: []) (true :: true :: []) 1
    (by decide)

/-- Error raised for invalid numeric configuration ranges (spec §7). -/
structure ConfigurationError where
  msg : String

/-- Preprocessor configuration (spec §4.1 and §6): quantile normalization
bounds and median filter size, as in the notebook configs. -/
structure PreprocCfg where
  lowerQuantile : ℚ
  upperQuantile : ℚ
  medianFilterSize : Nat

/-- Linearly interpolated quantile of a list of intensities, `q` a fraction
in `[0,1]`: the value at rank `q * (n-1)` of the sorted list. -/
def percentileQ (xs : List ℚ) (q : ℚ) : ℚ :=
  let s := xs.insertionSort (· ≤ ·)
  if s.length = 0 then 0
  else
    let rank := q * ((s.length : ℚ) - 1)
    let k := (Rat.floor rank).toNat
    let lo := s.getD k 0
    let hi := s.getD (k + 1) lo
    lo + (rank - ((Rat.floor rank : Int) : ℚ)) * (hi - lo)

/-- Clip `x` into the interval `[lo, hi]`. -/
def clipQ (lo hi x : ℚ) : ℚ := max lo (min hi x)

/-- Median of a list of intensities (upper median of the sorted list). -/
def medianQ (xs : List ℚ) : ℚ :=
  let s := xs.insertionSort (· ≤ ·)
  s.getD (s.length / 2) 0

/-- Modelled from the spec: median smoothing filter of pixel radius `r` on
the flattened raster — each pixel is replaced by the median of its window
(Preprocessor, §4.1). -/
def medianFilter (r : Nat) (xs : List ℚ) : List ℚ :=
  (List.range xs.length).map (fun i =>
    medianQ ((xs.drop (i - r)).take (i + r + 1 - (i - r))))

/-- Modelled from the spec: per-channel preprocessing — clip the channel to
its `[lower_quantile, upper_quantile]` intensity percentiles, rescale
linearly to `[0,1]`, then median-filter (Preprocessor, §4.1). -/
def processChannel (cfg : PreprocCfg) (xs : List ℚ) : List ℚ :=
  let lo := percentileQ xs cfg.lowerQuantile
  let hi := percentileQ xs cfg.upperQuantile
  medianFilter cfg.medianFilterSize
    (xs.map (fun x => (clipQ lo hi x - lo) / (hi - lo)))

/-- Modelled from the spec: the Preprocessor — fails with
`ConfigurationError` when `lower_quantile >= upper_quantile`, before any
channel is touched; otherwise processes every channel independently
(Preprocessor, §4.1 and §7). -/
def preprocess (cfg : PreprocCfg) (channels : List (List ℚ)) :
    Except ConfigurationError (List (List ℚ)) :=
  if cfg.upperQuantile ≤ cfg.lowerQuantile then
    .error ⟨"lower quantile must be strictly below upper quantile"⟩
  else .ok (channels.map (processChannel cfg))

/-- C5: the Preprocessor raises `ConfigurationError` exactly when
`lower_quantile >= upper_quantile`, and does so before any image processing
(the failure is independent of the image data); for valid bounds it
deterministically maps each channel through clip-to-percentiles, linear
rescale and median filter, with no state shared between channels. -/
theorem C5_preprocessor_quantile_error :
    (∀ (cfg : PreprocCfg) (channels : List (List ℚ)),
        isOkE (preprocess cfg channels) = false ↔
          cfg.upperQuantile ≤ cfg.lowerQuantile) ∧
    (∀ (cfg : PreprocCfg) (channels channels2 : List (List ℚ)),
        cfg.upperQuantile ≤ cfg.lowerQuantile →
        preprocess cfg channels = preprocess cfg channels2) ∧
    (∀ (cfg : PreprocCfg) (channels : List (List ℚ)),
        cfg.lowerQuantile < cfg.upperQuantile →
        preprocess cfg channels =
          .ok (channels.map (processChannel cfg))) ∧
    (∀ (cfg : PreprocCfg) (chan : List ℚ),
        processChannel cfg chan =
          medianFilter cfg.medianFilterSize
            (chan.map (fun x =>
              (clipQ (percentileQ chan cfg.lowerQuantile)
                  (percentileQ chan cfg.upperQuantile) x -
                percentileQ chan cfg.lowerQuantile) /
              (percentileQ chan cfg.upperQuantile -
                percentileQ chan cfg.lowerQuantile)))) := by
  refine ⟨?_, ?_, ?_, ?_⟩
  · intro cfg channels
    by_cases h : cfg.upperQuantile ≤ cfg.lowerQuantile
    · simp [preprocess, h, isOkE]
    · simp [preprocess, h, isOkE]
  · intro cfg channels channels2 h
    rw [preprocess, if_pos h, preprocess, if_pos h]
  · intro cfg channels h
    rw [preprocess, if_neg (not_le.mpr h)]
  · intro cfg chan
    rfl

theorem C5_preprocessor_quantile_error_witness :
    preprocess ⟨mkRat 1 1000, mkRat 999 1000, 4⟩ [] =
      .ok (([] : List (List ℚ)).map
        (processChannel ⟨mkRat 1 1000, mkRat 999 1000, 4⟩)) :=
  C5_preprocessor_quantile_error.2.2.1 ⟨mkRat 1 1000, mkRat 999 1000, 4⟩ []
    (by decide)

theorem getD_map_range {α : Type} (f : Nat → α) (s i : Nat) (h : i < s)
    (d : α) : ((List.range s).map f).getD i d = f i := by
  have hlen : i < ((List.range s).map f).length := by simpa using h
  rw [List.getD_eq_getElem _ d hlen]
  simp [List.getElem_map, List.getElem_range]

/-- A pixel of a 2-D raster at integer coordinates; positions outside the
raster read as zero. -/
def pixelAt (img : List (List ℚ)) (y x : Int) : ℚ :=
  if 0 ≤ y ∧ 0 ≤ x then (img.getD y.toNat []).getD x.toNat 0 else 0

/-- Top/left coordinate of an `s`-wide window centered at `c`. -/
def cropOrigin (c : Int) (s : Nat) : Int := c - ((s / 2 : Nat) : Int)

/-- Modelled from the spec: crop the fixed `s × s` window centered at
`(cy, cx)` from a raster; out-of-raster positions are zero-filled — the
window is padded rather than shifted (ChunkedExtractor, §4.6). -/
def cropWindow (img : List (List ℚ)) (cy cx : Int) (s : Nat) :
    List (List ℚ) :=
  (List.range s).map (fun r : Nat => (List.range s).map (fun c : Nat =>
    pixelAt img (cropOrigin cy s + (r : Int)) (cropOrigin cx s + (c : Int))))

/-- All (row, column) coordinates carrying label `l` in a 2-D mask. -/
def maskCoords (mask : List (List Nat)) (l : Nat) : List (Nat × Nat) :=
  mask.enum.flatMap (fun row =>
    row.2.enum.filterMap (fun pix =>
      if pix.2 == l then some (row.1, pix.1) else none))

/-- Modelled from the spec: the centroid (mean coordinate) of the cytosol
(or sole) mask of a cell (ChunkedExtractor, §4.6). -/
def centroidOf (mask : List (List Nat)) (l : Nat) : Int × Int :=
  ((((maskCoords mask l).map Prod.fst).sum / (maskCoords mask l).length :
      Nat),
   (((maskCoords mask l).map Prod.snd).sum / (maskCoords mask l).length :
      Nat))

/-- Modelled from the spec: the per-cell crop — the fixed window centered on
the mask centroid of the cell (ChunkedExtractor, §4.6). -/
def cropCell (img : List (List ℚ)) (mask : List (List Nat)) (l s : Nat) :
    List (List ℚ) :=
  cropWindow img (centroidOf mask l).1 (centroidOf mask l).2 s

theorem cropWindow_getD (img : List (List ℚ)) (cy cx : Int) (s r c : Nat)
    (hr : r < s) (hc : c < s) :
    ((cropWindow img cy cx s).getD r []).getD c 0 =
      pixelAt img (cropOrigin cy s + (r : Int))
        (cropOrigin cx s + (c : Int)) := by
  rw [cropWindow, getD_map_range _ s r hr, getD_map_range _ s c hc]

/-- C7: every crop is a full `image_size × image_size` array; its entry
`(r,c)` reads the raster at the window position, which is zero for every
out-of-raster position (zero padding on the clipped side); and the window is
never shifted — the center entry of the crop is always the raster pixel at
the centroid, for every cell. -/
theorem C7_crop_zero_padding :
    (∀ (img : List (List ℚ)) (cy cx : Int) (s : Nat),
        (cropWindow img cy cx s).length = s) ∧
    (∀ (img : List (List ℚ)) (cy cx : Int) (s : Nat)
        (row : List ℚ), row ∈ cropWindow img cy cx s → row.length = s) ∧
    (∀ (img : List (List ℚ)) (cy cx : Int) (s r c : Nat),
        r < s → c < s →
        ((cropWindow img cy cx s).getD r []).getD c 0 =
          pixelAt img (cropOrigin cy s + (r : Int))
            (cropOrigin cx s + (c : Int))) ∧
    (∀ (img : List (List ℚ)) (y x : Int),
        y < 0 ∨ x < 0 ∨ (img.length : Int) ≤ y → pixelAt img y x = 0) ∧
    (∀ (img : List (List ℚ)) (y x : Int), 0 ≤ y → 0 ≤ x →
        (((img.getD y.toNat []).length : Int) ≤ x) →
        pixelAt img y x = 0) ∧
    (∀ (img : List (List ℚ)) (cy cx : Int) (s : Nat), 0 < s →
        ((cropWindow img cy cx s).getD (s / 2) []).getD (s / 2) 0 =
          pixelAt img cy cx) ∧
    (∀ (img : List (List ℚ)) (mask : List (List Nat)) (l s : Nat),
        cropCell img mask l s =
          cropWindow img (centroidOf mask l).1 (centroidOf mask l).2 s) := by
  refine ⟨?_, ?_, ?_, ?_, ?_, ?_, ?_⟩
  · intro img cy cx s
    simp [cropWindow]
  · intro img cy cx s row hrow
    rw [cropWindow, List.mem_map] at hrow
    obtain ⟨r, -, hrow⟩ := hrow
    rw [← hrow]
    simp
  · intro img cy cx s r c hr hc
    exact cropWindow_getD img cy cx s r c hr hc
  · intro img y x h
    by_cases hin : 0 ≤ y ∧ 0 ≤ x
    · rw [pixelAt, if_pos hin]
      have hy : img.length ≤ y.toNat := by omega
      rw [List.getD_eq_default _ _ hy]
      rfl
    · rw [pixelAt, if_neg hin]
  · intro img y x hy hx hlen
    rw [pixelAt, if_pos ⟨hy, hx⟩]
    have hxl : (img.getD y.toNat []).length ≤ x.toNat := by omega
    rw [List.getD_eq_default _ _ hxl]
  · intro img cy cx s hs
    rw [cropWindow_getD img cy cx s (s / 2) (s / 2)
      (Nat.div_lt_self hs (by norm_num)) (Nat.div_lt_self hs (by norm_num))]
    simp only [cropOrigin, sub_add_cancel]
  · intro img mask l s
    rfl

theorem C7_crop_zero_padding_witness :
    pixelAt ((1 :: []) :: []) (-1) 0 = 0 :=
  C7_crop_zero_padding.2.2.2.1 ((1 :: []) :: []) (-1) 0
    (Or.inl (by decide))

/-- Number of pixels of `obj` covered by a shard with coverage `shard`
(pixels of the flattened raster are `Nat` ids; `obj` lists each pixel
once). -/
def interCount (obj shard : List Nat) : Nat :=
  (obj.filter (fun p => decide (p ∈ shard))).length

/-- Running best-index scan: first index of the maximum value. -/
def idxOfMaxAux : List Nat → Nat → Nat → Nat → Nat
  | [], _, bi, _ => bi
  | x :: rest, i, bi, bv =>
    if bv < x then idxOfMaxAux rest (i + 1) i x
    else idxOfMaxAux rest (i + 1) bi bv

/-- First index of the maximum element of a list (`0` on the empty list). -/
def idxOfMax : List Nat → Nat
  | [] => 0
  | x :: rest => idxOfMaxAux rest 1 0 x

/-- Modelled from the spec: the owning shard of an object — the shard
containing the most of the object's pixels, earlier shards winning ties
(CytosolSegmenterDL stitching, §4.4). -/
def ownerShard (obj : List Nat) (shards : List (List Nat)) : Nat :=
  idxOfMax (shards.map (fun sh => interCount obj sh))

/-- Assign global ids `1, 2, ...` to the objects in order; a pixel carries
the id of the object containing it. -/
def stitchedLabelAux : List (List Nat) → Nat → Nat → Nat
  | [], _, _ => 0
  | o :: rest, p, k =>
    if p ∈ o then k + 1 else stitchedLabelAux rest p (k + 1)

/-- Modelled from the spec: the stitched global mask after reconciliation —
all fragments of one object, in whichever shard they lie, carry that
object's single global id (CytosolSegmenterDL stitching, §4.4). -/
def stitchedLabel (objs : List (List Nat)) (p : Nat) : Nat :=
  stitchedLabelAux objs p 0

/-- The objects have pairwise disjoint pixel sets. -/
@[reducible] def disjointObjs (objs : List (List Nat)) : Prop :=
  ∀ i, i < objs.length → ∀ j, j < objs.length → i ≠ j →
    ∀ p ∈ objs.getD i [], p ∉ objs.getD j []

theorem stitchedLabelAux_eq (p : Nat) :
    ∀ (objs : List (List Nat)) (j k : Nat), j < objs.length →
      p ∈ objs.getD j [] → (∀ i, i < j → p ∉ objs.getD i []) →
      stitchedLabelAux objs p k = k + j + 1 := by
  intro objs
  induction objs with
  | nil => intro j k hj; simp at hj
  | cons o rest ih =>
    intro j k hj hp hnot
    cases j with
    | zero =>
      rw [stitchedLabelAux, if_pos (show p ∈ o from hp)]
    | succ j =>
      rw [stitchedLabelAux,
        if_neg (show p ∉ o from hnot 0 (Nat.succ_pos j))]
      have h := ih j (k + 1) (Nat.lt_of_succ_lt_succ hj) hp
        (fun i hi => hnot (i + 1) (Nat.succ_lt_succ hi))
      omega

theorem exists_getD_of_mem {xs : List Nat} {y : Nat} (hy : y ∈ xs) :
    ∃ m, m < xs.length ∧ xs.getD m 0 = y := by
  obtain ⟨m, hm, he⟩ := List.getElem_of_mem hy
  refine ⟨m, hm, ?_⟩
  rw [List.getD_eq_getElem _ _ hm]
  exact he

theorem idxOfMaxAux_of_all_le :
    ∀ (xs : List Nat) (i bi bv : Nat), (∀ x ∈ xs, x ≤ bv) →
      idxOfMaxAux xs i bi bv = bi
  | [], _, _, _, _ => rfl
  | x :: xs, i, bi, bv, h => by
    rw [idxOfMaxAux, if_neg (not_lt.mpr (h x (List.mem_cons_self x xs)))]
    exact idxOfMaxAux_of_all_le xs (i + 1) bi bv
      (fun y hy => h y (List.mem_cons_of_mem x hy))

theorem idxOfMaxAux_strict :
    ∀ (xs : List Nat) (j i bi bv : Nat), j < xs.length →
      bv < xs.getD j 0 →
      (∀ m, m < xs.length → m ≠ j → xs.getD m 0 < xs.getD j 0) →
      idxOfMaxAux xs i bi bv = i + j := by
  intro xs
  induction xs with
  | nil => intro j i bi bv hj; simp at hj
  | cons x xs ih =>
    intro j i bi bv hj hbv hmax
    cases j with
    | zero =>
      rw [idxOfMaxAux, if_pos (show bv < x from hbv)]
      rw [idxOfMaxAux_of_all_le xs (i + 1) i x ?_]
      · omega
      intro y hy
      obtain ⟨m, hm, hme⟩ := exists_getD_of_mem hy
      have := hmax (m + 1) (Nat.succ_lt_succ hm) (Nat.succ_ne_zero m)
      rw [List.getD_cons_succ, List.getD_cons_zero, hme] at this
      exact le_of_lt this
    | succ j =>
      have hmax2 : ∀ m, m < xs.length → m ≠ j →
          xs.getD m 0 < xs.getD j 0 := by
        intro m hm hne
        have := hmax (m + 1) (Nat.succ_lt_succ hm)
          (fun he => hne (Nat.succ_injective he))
        rwa [List.getD_cons_succ, List.getD_cons_succ] at this
      rw [List.getD_cons_succ] at hbv
      by_cases hx : bv < x
      · rw [idxOfMaxAux, if_pos hx]
        have hxlt : x < xs.getD j 0 := by
          have := hmax 0 (Nat.succ_pos _) (Nat.succ_ne_zero j).symm
          rwa [List.getD_cons_zero, List.getD_cons_succ] at this
        rw [ih j (i + 1) i x (Nat.lt_of_succ_lt_succ hj) hxlt hmax2]
        omega
      · rw [idxOfMaxAux, if_neg hx]
        rw [ih j (i + 1) bi bv (Nat.lt_of_succ_lt_succ hj) hbv hmax2]
        omega

theorem idxOfMax_strict (xs : List Nat) (j : Nat) (hj : j < xs.length)
    (hmax : ∀ m, m < xs.length → m ≠ j → xs.getD m 0 < xs.getD j 0) :
    idxOfMax xs = j := by
  cases xs with
  | nil => simp at hj
  | cons x xs =>
    cases j with
    | zero =>
      rw [idxOfMax]
      apply idxOfMaxAux_of_all_le
      intro y hy
      obtain ⟨m, hm, hme⟩ := exists_getD_of_mem hy
      have := hmax (m + 1) (Nat.succ_lt_succ hm) (Nat.succ_ne_zero m)
      rw [List.getD_cons_succ, List.getD_cons_zero, hme] at this
      exact le_of_lt this
    | succ j =>
      rw [idxOfMax]
      have hbv : x < xs.getD j 0 := by
        have := hmax 0 (Nat.succ_pos _) (Nat.succ_ne_zero j).symm
        rwa [List.getD_cons_zero, List.getD_cons_succ] at this
      have hmax2 : ∀ m, m < xs.length → m ≠ j →
          xs.getD m 0 < xs.getD j 0 := by
        intro m hm hne
        have := hmax (m + 1) (Nat.succ_lt_succ hm)
          (fun he => hne (Nat.succ_injective he))
        rwa [List.getD_cons_succ, List.getD_cons_succ] at this
      rw [idxOfMaxAux_strict xs j 1 0 x (Nat.lt_of_succ_lt_succ hj) hbv
        hmax2]
      omega

theorem ownerShard_eq_of_strict (obj : List Nat) (shards : List (List Nat))
    (k : Nat) (hk : k < shards.length)
    (hmax : ∀ m, m < shards.length → m ≠ k →
      interCount obj (shards.getD m []) <
        interCount obj (shards.getD k [])) :
    ownerShard obj shards = k := by
  rw [ownerShard]
  apply idxOfMax_strict
  · simpa using hk
  · intro m hm hne
    have hm2 : m < shards.length := by simpa using hm
    rw [getD_map_of_lt (fun sh => interCount obj sh) shards m hm2 0 [],
      getD_map_of_lt (fun sh => interCount obj sh) shards k hk 0 []]
    exact hmax m hm2 hne

/-- C8: after shard stitching every object carries exactly one global label
id on all of its pixels (fragments in different shards are relabeled to that
single id, never kept as separate labels), and the shard containing the
majority of the object's pixels owns the object — both in the plurality
form (strictly most pixels) and in the spec's >50% form. -/
theorem C8_shard_stitching :
    (∀ (objs : List (List Nat)) (j p q : Nat),
        disjointObjs objs → j < objs.length →
        p ∈ objs.getD j [] → q ∈ objs.getD j [] →
        stitchedLabel objs p = j + 1 ∧
          stitchedLabel objs p = stitchedLabel objs q ∧
          stitchedLabel objs p ≠ 0) ∧
    (∀ (obj : List Nat) (shards : List (List Nat)) (k : Nat),
        k < shards.length →
        (∀ m, m < shards.length → m ≠ k →
          interCount obj (shards.getD m []) <
            interCount obj (shards.getD k [])) →
        ownerShard obj shards = k) ∧
    (∀ (obj : List Nat) (shards : List (List Nat)) (k : Nat),
        k < shards.length →
        (∀ m, m < shards.length → m ≠ k →
          2 * interCount obj (shards.getD m []) ≤ obj.length) →
        obj.length < 2 * interCount obj (shards.getD k []) →
        ownerShard obj shards = k) := by
  refine ⟨?_, ownerShard_eq_of_strict, ?_⟩
  · intro objs j p q hdis hj hp hq
    have hlab : ∀ r, r ∈ objs.getD j [] → stitchedLabel objs r = j + 1 := by
      intro r hr
      rw [stitchedLabel]
      have h := stitchedLabelAux_eq r objs j 0 hj hr
        (fun i hi => hdis j hj i (lt_trans hi hj) (by omega) r hr)
      omega
    refine ⟨hlab p hp, ?_, ?_⟩
    · rw [hlab p hp, hlab q hq]
    · rw [hlab p hp]
      omega
  · intro obj shards k hk hhalf hmaj
    apply ownerShard_eq_of_strict obj shards k hk
    intro m hm hne
    have := hhalf m hm hne
    omega

theorem C8_shard_stitching_witness :
    (stitchedLabel ((0 :: 1 :: []) :: (2 :: 3 :: []) :: []) 2 = 2 ∧
      stitchedLabel ((0 :: 1 :: []) :: (2 :: 3 :: []) :: []) 2 =
        stitchedLabel ((0 :: 1 :: []) :: (2 :: 3 :: []) :: []) 3 ∧
      stitchedLabel ((0 :: 1 :: []) :: (2 :: 3 :: []) :: []) 2 ≠ 0) ∧
    ownerShard (List.range 10)
      ((List.range 7) :: (5 :: 6 :: 7 :: 8 :: 9 :: []) :: []) = 0 :=
  ⟨C8_shard_stitching.1 ((0 :: 1 :: []) :: (2 :: 3 :: []) :: []) 1 2 3
      (by
        unfold disjointObjs
        intro i hi j hj hne
        have hi2 : i < 2 := by simpa using hi
        have hj2 : j < 2 := by simpa using hj
        interval_cases i <;> interval_cases j <;>
          first
            | exact absurd rfl hne
            | decide)
      (by decide) (by decide) (by decide),
    C8_shard_stitching.2.2 (List.range 10)
      ((List.range 7) :: (5 :: 6 :: 7 :: 8 :: 9 :: []) :: []) 0
      (by decide) (by decide) (by decide)⟩

/-- Rational subtraction computed on numerator/denominator pairs; equal to
`p - q` (see `qsub_eq`) but reducible by the kernel. -/
def qsub (p q : ℚ) : ℚ :=
  Rat.divInt (p.num * (q.den : Int) - q.num * (p.den : Int))
    ((p.den : Int) * (q.den : Int))

/-- Rational division computed on numerator/denominator pairs; equal to
`p / q` (see `qdiv_eq`). -/
def qdiv (p q : ℚ) : ℚ :=
  Rat.divInt (p.num * (q.den : Int)) ((p.den : Int) * q.num)

/-- Rational multiplication computed on numerator/denominator pairs; equal
to `p * q` (see `qmul_eq`). -/
def qmul (p q : ℚ) : ℚ :=
  Rat.divInt (p.num * q.num) ((p.den : Int) * (q.den : Int))

/-- Rational addition computed on numerator/denominator pairs; equal to
`p + q` (see `qadd_eq`). -/
def qadd (p q : ℚ) : ℚ :=
  Rat.divInt (p.num * (q.den : Int) + q.num * (p.den : Int))
    ((p.den : Int) * (q.den : Int))

theorem qsub_eq (p q : ℚ) : qsub p q = p - q := by
  have hp : ((p.den : ℚ)) ≠ 0 := by
    exact_mod_cast p.den_nz
  have hq : ((q.den : ℚ)) ≠ 0 := by
    exact_mod_cast q.den_nz
  rw [qsub, Rat.divInt_eq_div]
  push_cast
  conv_rhs => rw [← Rat.num_div_den p, ← Rat.num_div_den q]
  rw [div_sub_div _ _ hp hq]
  congr 1
  ring

theorem qadd_eq (p q : ℚ) : qadd p q = p + q := by
  have hp : ((p.den : ℚ)) ≠ 0 := by
    exact_mod_cast p.den_nz
  have hq : ((q.den : ℚ)) ≠ 0 := by
    exact_mod_cast q.den_nz
  rw [qadd, Rat.divInt_eq_div]
  push_cast
  conv_rhs => rw [← Rat.num_div_den p, ← Rat.num_div_den q]
  rw [div_add_div _ _ hp hq]
  congr 1
  ring

theorem qmul_eq (p q : ℚ) : qmul p q = p * q := by
  have hp : ((p.den : ℚ)) ≠ 0 := by
    exact_mod_cast p.den_nz
  have hq : ((q.den : ℚ)) ≠ 0 := by
    exact_mod_cast q.den_nz
  rw [qmul, Rat.divInt_eq_div]
  push_cast
  conv_rhs => rw [← Rat.num_div_den p, ← Rat.num_div_den q]
  rw [div_mul_div_comm]

theorem qdiv_eq (p q : ℚ) : qdiv p q = p / q := by
  rcases eq_or_ne q 0 with hq0 | hq0
  · subst hq0
    rw [qdiv]
    norm_num
  · have hp : ((p.den : ℚ)) ≠ 0 := by
      exact_mod_cast p.den_nz
    have hqd : ((q.den : ℚ)) ≠ 0 := by
      exact_mod_cast q.den_nz
    have hqn : ((q.num : ℚ)) ≠ 0 := by
      exact_mod_cast Rat.num_ne_zero.mpr hq0
    have hpn : ((p.num : ℚ)) = p * ((p.den : ℚ)) :=
      (div_eq_iff hp).mp (Rat.num_div_den p)
    have hqn2 : ((q.num : ℚ)) = q * ((q.den : ℚ)) :=
      (div_eq_iff hqd).mp (Rat.num_div_den q)
    rw [qdiv, Rat.divInt_eq_div]
    push_cast
    rw [hpn, hqn2,
      div_eq_div_iff (mul_ne_zero hp (mul_ne_zero hq0 hqd)) hq0]
    ring

/-- Error mirroring Python's `ValueError`. -/
structure ValueError where
  msg : String

/-- A NumPy-style array: its shape together with the flattened data
(`ndim` is the length of the shape). -/
structure NDArray where
  shape : List Nat
  data : List ℚ

/-- `np.percentile` with the default linear interpolation, `q` in
`0..100`: the value at fractional rank `q/100 * (n-1)` of the sorted data.
Computed with the kernel-reducible rational operations `qadd`/`qsub`/
`qmul`/`qdiv`, which equal `+`, `-`, `*`, `/` by the lemmas above. -/
def npPercentile (xs : List ℚ) (q : ℚ) : ℚ :=
  let s := xs.insertionSort (· ≤ ·)
  if s.length = 0 then 0
  else
    let rank := qdiv (qmul q (qsub ((s.length : ℚ)) 1)) 100
    let k := (Rat.floor rank).toNat
    let lo := s.getD k 0
    let hi := s.getD (k + 1) lo
    qadd lo (qmul (qsub rank ((Rat.floor rank : Int) : ℚ)) (qsub hi lo))

/-- The rescaling pipeline of `colorize` (src/unnamed/part_000): subtract
the `clip_percentile` percentile, divide by the `100 - clip_percentile`
percentile of the shifted data, clip to `[0, 1]`. -/
def colorizeScaled (im : NDArray) (cp : ℚ) : List ℚ :=
  let p := npPercentile im.data cp
  let shifted := im.data.map (fun v => qsub v p)
  let d := npPercentile shifted (qsub 100 cp)
  shifted.map (fun v => clipQ 0 1 (qdiv v d))

/-- The notebook helper `colorize` (src/unnamed/part_000, lines 61-80):
raises `ValueError` when `im.ndim > 2 and im.shape[2] != 1`; otherwise
rescales the image and multiplies each pixel by the color vector
(channels-last broadcast). -/
def colorize (im : NDArray) (color : List ℚ) (cp : ℚ) :
    Except ValueError NDArray :=
  if 2 < im.shape.length ∧ im.shape.getD 2 0 ≠ 1 then
    .error ⟨"This function expects a single-channel image!"⟩
  else
    .ok ⟨im.shape.take 2 ++ (color.length :: []),
      (colorizeScaled im cp).flatMap (fun v => color.map (fun c => qmul v c))⟩

/-- The payload of a successful `colorize` call, with a fallback for the
error case. -/
def okOr (e : Except ValueError NDArray) (d : NDArray) : NDArray :=
  match e with
  | .ok a => a
  | .error _ => d

/-- C10: `colorize` raises `ValueError` ("This function expects a
single-channel image!") exactly for inputs with more than 2 dimensions
whose third dimension differs from 1; every other input returns normally
with the percentile-rescaled image clipped to `[0,1]` and multiplied by the
given color, as checked on a concrete 2x2 image. -/
theorem C10_colorize_single_channel_check :
    (∀ (im : NDArray) (color : List ℚ) (cp : ℚ),
        isOkE (colorize im color cp) = false ↔
          2 < im.shape.length ∧ im.shape.getD 2 0 ≠ 1) ∧
    (∀ (im : NDArray) (color : List ℚ) (cp : ℚ),
        2 < im.shape.length → im.shape.getD 2 0 ≠ 1 →
        colorize im color cp =
          .error ⟨"This function expects a single-channel image!"⟩) ∧
    (∀ (im : NDArray) (color : List ℚ) (cp : ℚ),
        ¬(2 < im.shape.length ∧ im.shape.getD 2 0 ≠ 1) →
        colorize im color cp =
          .ok ⟨im.shape.take 2 ++ (color.length :: []),
            (colorizeScaled im cp).flatMap
              (fun v => color.map (fun c => v * c))⟩) ∧
    (∀ (im : NDArray) (cp : ℚ),
        colorizeScaled im cp =
          (im.data.map (fun v => v - npPercentile im.data cp)).map
            (fun v => clipQ 0 1 (v /
              npPercentile
                (im.data.map (fun w => w - npPercentile im.data cp))
                (100 - cp)))) ∧
    (okOr (colorize ⟨2 :: 2 :: [], (0 : ℚ) :: 1 :: 2 :: 3 :: []⟩
        ((1 : ℚ) :: 0 :: 0 :: []) 0) ⟨[], []⟩).shape =
      2 :: 2 :: 3 :: [] ∧
    (okOr (colorize ⟨2 :: 2 :: [], (0 : ℚ) :: 1 :: 2 :: 3 :: []⟩
        ((1 : ℚ) :: 0 :: 0 :: []) 0) ⟨[], []⟩).data =
      (0 : ℚ) :: 0 :: 0 :: mkRat 1 3 :: 0 :: 0 :: mkRat 2 3 :: 0 :: 0 ::
        1 :: 0 :: 0 :: [] ∧
    isOkE (colorize ⟨2 :: 2 :: 5 :: [], []⟩ ((1 : ℚ) :: []) 0) = false := by
  refine ⟨?_, ?_, ?_, ?_, by decide, by decide, by decide⟩
  · intro im color cp
    rw [colorize]
    by_cases h : 2 < im.shape.length ∧ im.shape.getD 2 0 ≠ 1
    · rw [if_pos h]
      exact iff_of_true rfl h
    · rw [if_neg h]
      exact iff_of_false (by simp [isOkE]) h
  · intro im color cp h1 h2
    rw [colorize, if_pos ⟨h1, h2⟩]
  · intro im color cp h
    rw [colorize, if_neg h]
    simp only [qmul_eq]
  · intro im cp
    simp only [colorizeScaled, qsub_eq, qdiv_eq]

theorem C10_colorize_single_channel_check_witness :
    colorize ⟨2 :: 2 :: 5 :: [], []⟩ ((1 : ℚ) :: []) 0 =
      .error ⟨"This function expects a single-channel image!"⟩ :=
  C10_colorize_single_channel_check.2.1 ⟨2 :: 2 :: 5 :: [], []⟩
    ((1 : ℚ) :: []) 0 (by decide) (by decide)

end ScPortrait
